import Mathlib

/-!
Verification of the four-in-a-row core: board engine, game state machine,
and the server-side room registry (rematch handling and room-code
generation), shallowly embedded from the JavaScript source.

The board is the 6 by 7 grid of the source (row 0 at the top); a cell holds
0 (EMPTY), 1 (PLAYER_RED) or 2 (PLAYER_YELLOW).  JavaScript arrays of fixed
shape are embedded as total functions on `Fin`; the column argument of the
public operations is an `Int`, since callers may pass a negative or too
large index and the source guards for that.  All functions are pure, so the
source's no-mutation contracts hold by construction and the interesting
content is the value-level behaviour.
-/

def ROWS : Nat := 6

def COLS : Nat := 7

def EMPTY : Nat := 0

def PLAYER_RED : Nat := 1

def PLAYER_YELLOW : Nat := 2

/-- A board: row index first (0 is the top row), then column. -/
def Board : Type := Fin ROWS → Fin COLS → Nat

instance : DecidableEq Board :=
  inferInstanceAs (DecidableEq (Fin ROWS → Fin COLS → Nat))

/-- `createBoard` from the source: every cell EMPTY. -/
def createBoard : Board := fun _ _ => EMPTY

/-- Functional update of one cell (the effect of `newBoard[row][col] = player`
after `cloneBoard`). -/
def setCell (b : Board) (r : Fin ROWS) (c : Fin COLS) (v : Nat) : Board :=
  fun r' c' => if r' = r ∧ c' = c then v else b r' c'

/-- The rows in the order `getLowestEmptyRow` scans them: bottom row first. -/
def rowsBottomUp : List (Fin ROWS) := (List.finRange ROWS).reverse

/-- `getLowestEmptyRow` from the source: scan from the bottom row upward and
return the first EMPTY cell's row.  The source returns -1 when the column is
full; we return `none`. -/
def getLowestEmptyRow (b : Board) (c : Fin COLS) : Option (Fin ROWS) :=
  rowsBottomUp.find? (fun r => b r c == EMPTY)

/-- `isColumnFull` from the source: looks only at the top cell. -/
def isColumnFull (b : Board) (c : Fin COLS) : Bool :=
  b ⟨0, by decide⟩ c != EMPTY

/-- `isBoardFull` from the source: the whole top row is occupied. -/
def isBoardFull (b : Board) : Bool :=
  (List.finRange COLS).all (fun c => b ⟨0, by decide⟩ c != EMPTY)

/-- Result record of `dropPiece` (`row` is -1 on failure, as in the source). -/
structure DropResult where
  success : Bool
  row : Int
  board : Board
deriving DecidableEq

/-- `dropPiece` from the source: bounds-check the column, find the lowest
empty row, and place the piece there on a fresh board. -/
def dropPiece (b : Board) (col : Int) (player : Nat) : DropResult :=
  if h : 0 ≤ col ∧ col < (COLS : Int) then
    let c : Fin COLS := ⟨col.toNat, by omega⟩
    match getLowestEmptyRow b c with
    | none => ⟨false, -1, b⟩
    | some r => ⟨true, (r.val : Int), setCell b r c player⟩
  else
    ⟨false, -1, b⟩

/-- `getOtherPlayer` from the source. -/
def getOtherPlayer (player : Nat) : Nat :=
  if player = PLAYER_RED then PLAYER_YELLOW else PLAYER_RED

/-- Cell lookup with `Nat` coordinates, used by the win scan.  Every window
the scan produces is in range, so the default branch is dead code; EMPTY is
returned there because a JavaScript out-of-range read gives `undefined`,
which compares unequal to any player. -/
def cellAt (b : Board) (pos : Nat × Nat) : Nat :=
  if h : pos.1 < ROWS ∧ pos.2 < COLS then b ⟨pos.1, h.1⟩ ⟨pos.2, h.2⟩ else EMPTY

/-- The window a horizontal check at `(row, col)` inspects. -/
def hWin (row col : Nat) : List (Nat × Nat) :=
  [(row, col), (row, col + 1), (row, col + 2), (row, col + 3)]

/-- The window a vertical check at `(row, col)` inspects. -/
def vWin (row col : Nat) : List (Nat × Nat) :=
  [(row, col), (row + 1, col), (row + 2, col), (row + 3, col)]

/-- The window a bottom-left-to-top-right diagonal check at `(row, col)`
inspects (the source loops `row` from 3 upward, so `row - i` stays in
range). -/
def dUpWin (row col : Nat) : List (Nat × Nat) :=
  [(row, col), (row - 1, col + 1), (row - 2, col + 2), (row - 3, col + 3)]

/-- The window a top-left-to-bottom-right diagonal check at `(row, col)`
inspects. -/
def dDownWin (row col : Nat) : List (Nat × Nat) :=
  [(row, col), (row + 1, col + 1), (row + 2, col + 2), (row + 3, col + 3)]

/-- The horizontal loop nest of `checkWin`: `row` over `0..ROWS-1`, `col`
over `0..COLS-4`. -/
def horizWindows : List (List (Nat × Nat)) :=
  (List.range ROWS).flatMap (fun row =>
    (List.range (COLS - 3)).map (fun col => hWin row col))

/-- The vertical loop nest of `checkWin`: `row` over `0..ROWS-4`, `col`
over `0..COLS-1`. -/
def vertWindows : List (List (Nat × Nat)) :=
  (List.range (ROWS - 3)).flatMap (fun row =>
    (List.range COLS).map (fun col => vWin row col))

/-- The first diagonal loop nest of `checkWin`: `row` over `3..ROWS-1`
(written as `i + 3`), `col` over `0..COLS-4`. -/
def diagUpWindows : List (List (Nat × Nat)) :=
  (List.range (ROWS - 3)).flatMap (fun i =>
    (List.range (COLS - 3)).map (fun col => dUpWin (i + 3) col))

/-- The second diagonal loop nest of `checkWin`: `row` over `0..ROWS-4`,
`col` over `0..COLS-4`. -/
def diagDownWindows : List (List (Nat × Nat)) :=
  (List.range (ROWS - 3)).flatMap (fun row =>
    (List.range (COLS - 3)).map (fun col => dDownWin row col))

/-- All candidate windows, in exactly the order the source's four loop nests
visit them; `checkWin` early-returns on the first match. -/
def allWindows : List (List (Nat × Nat)) :=
  horizWindows ++ vertWindows ++ diagUpWindows ++ diagDownWindows

/-- One window's test: all four inspected cells hold `player`. -/
def windowMatches (b : Board) (player : Nat) (w : List (Nat × Nat)) : Bool :=
  w.all (fun pos => cellAt b pos == player)

/-- Result record of `checkWin`. -/
structure WinResult where
  won : Bool
  cells : List (Nat × Nat)
deriving DecidableEq

/-- `checkWin` from the source: the four loop nests with early return are
embedded as the first match over `allWindows`. -/
def checkWin (b : Board) (player : Nat) : WinResult :=
  match allWindows.find? (fun w => windowMatches b player w) with
  | some w => ⟨true, w⟩
  | none => ⟨false, []⟩

/-- One entry of `moveHistory` (`{col, row, player}` in the source). -/
structure Move where
  col : Int
  row : Int
  player : Nat
deriving DecidableEq

/-- The `GameState` class's fields. -/
structure GameState where
  board : Board
  currentPlayer : Nat
  winner : Option Nat
  winningCells : List (Nat × Nat)
  isDraw : Bool
  moveHistory : List Move
  gameOver : Bool
deriving DecidableEq

/-- `reset()` from the source (also the constructor). -/
def GameState.reset : GameState :=
  { board := createBoard
    currentPlayer := PLAYER_RED
    winner := none
    winningCells := []
    isDraw := false
    moveHistory := []
    gameOver := false }

/-- Result record of `makeMove`. -/
structure MoveResult where
  success : Bool
  row : Int
  winner : Option Nat
  winningCells : List (Nat × Nat)
  isDraw : Bool
deriving DecidableEq

/-- The failure result `makeMove` returns on a rejected move. -/
def failResult : MoveResult := ⟨false, -1, none, [], false⟩

/-- `makeMove` from the source.  The JavaScript method mutates `this` and
returns a result object; the embedding returns the result together with the
updated state. -/
def GameState.makeMove (s : GameState) (col : Int) : MoveResult × GameState :=
  if s.gameOver then (failResult, s)
  else
    let result := dropPiece s.board col s.currentPlayer
    if result.success = false then (failResult, s)
    else
      let s1 : GameState :=
        { s with
          board := result.board
          moveHistory := s.moveHistory ++ [⟨col, result.row, s.currentPlayer⟩] }
      let winResult := checkWin s1.board s.currentPlayer
      if winResult.won then
        let s2 : GameState :=
          { s1 with
            winner := some s.currentPlayer
            winningCells := winResult.cells
            gameOver := true }
        (⟨true, result.row, s2.winner, s2.winningCells, false⟩, s2)
      else if isBoardFull s1.board then
        let s2 : GameState := { s1 with isDraw := true, gameOver := true }
        (⟨true, result.row, none, [], true⟩, s2)
      else
        (⟨true, result.row, none, [], false⟩,
          { s1 with currentPlayer := getOtherPlayer s.currentPlayer })

/-- `getValidColumns` from the source: the columns whose top cell is free,
in increasing order. -/
def GameState.getValidColumns (s : GameState) : List (Fin COLS) :=
  (List.finRange COLS).filter (fun c => !(isColumnFull s.board c))

/-- The plain object `serialize()` builds (same seven fields). -/
structure SerializedState where
  board : Board
  currentPlayer : Nat
  winner : Option Nat
  winningCells : List (Nat × Nat)
  isDraw : Bool
  moveHistory : List Move
  gameOver : Bool
deriving DecidableEq

/-- `serialize()` from the source. -/
def GameState.serialize (s : GameState) : SerializedState :=
  { board := s.board
    currentPlayer := s.currentPlayer
    winner := s.winner
    winningCells := s.winningCells
    isDraw := s.isDraw
    moveHistory := s.moveHistory
    gameOver := s.gameOver }

/-- `deserialize(data)` from the source: overwrites every field. -/
def GameState.deserialize (data : SerializedState) : GameState :=
  { board := data.board
    currentPlayer := data.currentPlayer
    winner := data.winner
    winningCells := data.winningCells
    isDraw := data.isDraw
    moveHistory := data.moveHistory
    gameOver := data.gameOver }

/-- Folding a list of column choices through `makeMove`, keeping the state. -/
def applyMoves (s : GameState) (ms : List Int) : GameState :=
  ms.foldl (fun st col => (st.makeMove col).2) s

/-- The states a client can be in: everything `makeMove` can produce from a
fresh `reset()`. -/
def Reachable (s : GameState) : Prop :=
  ∃ ms : List Int, s = applyMoves GameState.reset ms

/-- The gravity invariant of the spec: a cell below (larger row index) an
occupied cell of the same column is never EMPTY. -/
def gravityInv (b : Board) : Prop :=
  ∀ (r r' : Fin ROWS) (c : Fin COLS), r.val < r'.val → b r c ≠ EMPTY → b r' c ≠ EMPTY

instance (b : Board) : Decidable (gravityInv b) := by
  unfold gravityInv
  infer_instance

/-- The number of pieces a column contains. -/
def colCount (b : Board) (c : Fin COLS) : Nat :=
  (Finset.univ.filter (fun r : Fin ROWS => b r c ≠ EMPTY)).card

/-- The board contains four consecutive cells of `p` in one of the four
orientations (the property `checkWin` is meant to decide, stated without
reference to its scan). -/
def hasFourInARow (b : Board) (p : Nat) : Prop :=
  (∃ row col, row < ROWS ∧ col + 3 < COLS ∧
    cellAt b (row, col) = p ∧ cellAt b (row, col + 1) = p ∧
    cellAt b (row, col + 2) = p ∧ cellAt b (row, col + 3) = p) ∨
  (∃ row col, row + 3 < ROWS ∧ col < COLS ∧
    cellAt b (row, col) = p ∧ cellAt b (row + 1, col) = p ∧
    cellAt b (row + 2, col) = p ∧ cellAt b (row + 3, col) = p) ∨
  (∃ row col, 3 ≤ row ∧ row < ROWS ∧ col + 3 < COLS ∧
    cellAt b (row, col) = p ∧ cellAt b (row - 1, col + 1) = p ∧
    cellAt b (row - 2, col + 2) = p ∧ cellAt b (row - 3, col + 3) = p) ∨
  (∃ row col, row + 3 < ROWS ∧ col + 3 < COLS ∧
    cellAt b (row, col) = p ∧ cellAt b (row + 1, col + 1) = p ∧
    cellAt b (row + 2, col + 2) = p ∧ cellAt b (row + 3, col + 3) = p)

/-- A successful move never rewrites a cell that is already occupied. -/
def MonotonicFill (s : GameState) : Prop :=
  ∀ (col : Int), (s.makeMove col).1.success = true →
    ∀ (r : Fin ROWS) (c : Fin COLS), s.board r c ≠ EMPTY →
      (s.makeMove col).2.board r c = s.board r c

/-- Messages the rematch handler can emit to a single recipient. -/
inductive GameMsg where
  | rematchStarted : GameMsg
  | rematchRequested (playerId : String) : GameMsg
deriving DecidableEq

/-- A server-side room (the `game` object of the server). -/
structure Room where
  code : String
  hostId : String
  players : List String
  gameState : Option SerializedState
  currentPlayer : Nat
  createdAt : Nat
  rematchRequests : Finset String

/-- `io.to(room).emit(msg)`: every occupant receives it. -/
def broadcastTo (players : List String) (m : GameMsg) : List (String × GameMsg) :=
  players.map (fun p => (p, m))

/-- The `game:rematch` handler of the server for an existing room: record the
sender in the request set; if the set then holds at least two ids, clear it,
drop the cached game state and broadcast a rematch-started notice to every
occupant (`io.to`); otherwise notify the occupants other than the sender
(`socket.to`) that a rematch was requested. -/
def handleRematch (g : Room) (sender : String) : Room × List (String × GameMsg) :=
  let reqs := insert sender g.rematchRequests
  if 2 ≤ reqs.card then
    ({ g with gameState := none, currentPlayer := 1,
              rematchRequests := (∅ : Finset String) },
      broadcastTo g.players GameMsg.rematchStarted)
  else
    ({ g with rematchRequests := reqs },
      broadcastTo (g.players.filter (fun p => p != sender))
        (GameMsg.rematchRequested sender))

/-- The alphabet of `generateGameCode` (32 symbols, no 0/O/1/I). -/
def codeAlphabet : List Char := "ABCDEFGHJKLMNPQRSTUVWXYZ23456789".toList

/-- One six-character attempt of `generateGameCode`: attempt `k` consumes
random draws `6k .. 6k+5` of the stream. -/
def mkCode (draws : Nat → Fin 32) (k : Nat) : String :=
  String.mk ((List.range 6).map (fun i =>
    codeAlphabet.get (Fin.cast (by decide) (draws (6 * k + i)))))

/-- The do-while loop of `generateGameCode`: keep drawing codes until one
misses every live room.  The source has no retry bound, so the embedding
takes explicit fuel; `none` means the loop is still running after `fuel`
attempts. -/
def genCodeAux (draws : Nat → Fin 32) (live : Finset String) :
    Nat → Nat → Option String
  | _, 0 => none
  | k, fuel + 1 =>
    let code := mkCode draws k
    if code ∈ live then genCodeAux draws live (k + 1) fuel else some code

/-- `generateGameCode` from the server, fuelled: `live` is the key set of the
`games` map. -/
def generateGameCode (draws : Nat → Fin 32) (live : Finset String)
    (fuel : Nat) : Option String :=
  genCodeAux draws live 0 fuel

/-- The behaviour claimed for `dropPiece` on a gravity-respecting board whose
column `c` holds `colCount b c` pieces. -/
def DropSpec (b : Board) (c : Fin COLS) (player : Nat) : Prop :=
  (colCount b c < ROWS →
    (dropPiece b (c.val : Int) player).success = true ∧
    (dropPiece b (c.val : Int) player).row =
      ((ROWS - 1 - colCount b c : Nat) : Int) ∧
    ∀ (r' : Fin ROWS) (c' : Fin COLS),
      (dropPiece b (c.val : Int) player).board r' c' =
        if r'.val = ROWS - 1 - colCount b c ∧ c' = c then player
        else b r' c') ∧
  (colCount b c = ROWS → (dropPiece b (c.val : Int) player).success = false) ∧
  (∀ col : Int, col < 0 ∨ (COLS : Int) ≤ col →
    (dropPiece b col player).success = false)

/-- The inductive invariant of reachable states: gravity plus a well-formed
current player. -/
def StateInv (s : GameState) : Prop :=
  gravityInv s.board ∧
    (s.currentPlayer = PLAYER_RED ∨ s.currentPlayer = PLAYER_YELLOW)

/-- The property C3 claims of `checkWin`: a miss is exactly the absence of
any four-in-a-row (with an empty cell list), and a hit returns the first
matching window of the fixed scan order. -/
def FirstWinSpec (b : Board) (p : Nat) : Prop :=
  ((checkWin b p).won = false ↔ ¬ hasFourInARow b p) ∧
  ((checkWin b p).won = false → (checkWin b p).cells = []) ∧
  ((checkWin b p).won = true →
    windowMatches b p ((checkWin b p).cells) = true ∧
    ∃ l₁ l₂, allWindows = l₁ ++ (checkWin b p).cells :: l₂ ∧
      ∀ w ∈ l₁, windowMatches b p w = false)

/-- C3 witness: a board with red on the whole bottom row's first four
columns. -/
def winBoard : Board :=
  fun r c => if r.val = 5 ∧ c.val ≤ 3 then PLAYER_RED else EMPTY

/-- The property C7 claims of the rematch handler. -/
def RematchSpec (g : Room) (sender : String) : Prop :=
  (2 ≤ (insert sender g.rematchRequests).card →
    (handleRematch g sender).1.rematchRequests = (∅ : Finset String) ∧
    (handleRematch g sender).1.gameState = none ∧
    (handleRematch g sender).2 = broadcastTo g.players GameMsg.rematchStarted) ∧
  ((insert sender g.rematchRequests).card < 2 →
    (handleRematch g sender).1.rematchRequests = insert sender g.rematchRequests ∧
    sender ∈ (handleRematch g sender).1.rematchRequests ∧
    (handleRematch g sender).1.gameState = g.gameState ∧
    (handleRematch g sender).2 =
      broadcastTo (g.players.filter (fun q => q != sender))
        (GameMsg.rematchRequested sender) ∧
    (∀ e ∈ (handleRematch g sender).2, e.1 ≠ sender)) ∧
  (g.rematchRequests = {sender} →
    (handleRematch g sender).1.rematchRequests = g.rematchRequests ∧
    (handleRematch g sender).1.gameState = g.gameState ∧
    ∀ e ∈ (handleRematch g sender).2, e.2 ≠ GameMsg.rematchStarted)

/-- C7 witness: a two-player room where the host has already requested and
the guest's request completes the pair. -/
def roomW : Room :=
  { code := "ABCDEF", hostId := "p1", players := ["p1", "p2"],
    gameState := none, currentPlayer := 1, createdAt := 0,
    rematchRequests := {"p1"} }

/-- `List.find?` returns the first element satisfying the predicate: the list
splits around the hit and everything before it fails the test. -/
theorem find_first_spec {α : Type} (p : α → Bool) :
    ∀ (l : List α) (a : α), l.find? p = some a →
      ∃ l₁ l₂, l = l₁ ++ a :: l₂ ∧ p a = true ∧ ∀ x ∈ l₁, p x = false := by
  intro l
  induction l with
  | nil => intro a h; simp [List.find?] at h
  | cons x xs ih =>
    intro a h
    by_cases hx : p x = true
    · rw [List.find?_cons_of_pos _ hx] at h
      obtain rfl : x = a := by simpa using h
      exact ⟨[], xs, rfl, hx, by simp⟩
    · rw [List.find?_cons_of_neg _ hx] at h
      obtain ⟨l₁, l₂, rfl, hpa, hl₁⟩ := ih a h
      refine ⟨x :: l₁, l₂, rfl, hpa, ?_⟩
      intro y hy
      rcases List.mem_cons.mp hy with rfl | hy
      · simpa using hx
      · exact hl₁ y hy

theorem mem_rowsBottomUp (r : Fin ROWS) : r ∈ rowsBottomUp := by
  have : ∀ r' : Fin ROWS, r' ∈ rowsBottomUp := by decide
  exact this r

theorem rowsBottomUp_desc :
    List.Pairwise (fun a b : Fin ROWS => b.val < a.val) rowsBottomUp := by decide

/-- What a successful bottom-up scan means: the returned row is empty and
every row strictly below it is occupied. -/
theorem getLowestEmptyRow_some_spec (b : Board) (c : Fin COLS) (r : Fin ROWS)
    (h : getLowestEmptyRow b c = some r) :
    b r c = EMPTY ∧ ∀ r' : Fin ROWS, r.val < r'.val → b r' c ≠ EMPTY := by
  obtain ⟨l₁, l₂, heq, hpa, hl₁⟩ := find_first_spec _ _ _ h
  refine ⟨by simpa using hpa, ?_⟩
  intro r' hlt
  have hmem : r' ∈ rowsBottomUp := mem_rowsBottomUp r'
  have hpair := rowsBottomUp_desc
  rw [heq] at hmem hpair
  rcases List.mem_append.mp hmem with h1 | h2
  · have := hl₁ r' h1
    simpa using this
  · rcases List.mem_cons.mp h2 with rfl | h3
    · omega
    · have hp2 := (List.pairwise_append.mp hpair).2.1
      have := (List.pairwise_cons.mp hp2).1 r' h3
      omega

theorem getLowestEmptyRow_eq_none_iff (b : Board) (c : Fin COLS) :
    getLowestEmptyRow b c = none ↔ ∀ r' : Fin ROWS, b r' c ≠ EMPTY := by
  unfold getLowestEmptyRow
  rw [List.find?_eq_none]
  constructor
  · intro h r'
    have := h r' (mem_rowsBottomUp r')
    simpa using this
  · intro h r' _
    simpa using h r'

/-- Under gravity, a successful scan pins down every cell of the column:
occupied exactly below the returned row. -/
theorem lowRow_gravity_char (b : Board) (c : Fin COLS) (r : Fin ROWS)
    (hg : gravityInv b) (h : getLowestEmptyRow b c = some r) :
    ∀ r' : Fin ROWS, b r' c ≠ EMPTY ↔ r.val < r'.val := by
  obtain ⟨hemp, habove⟩ := getLowestEmptyRow_some_spec b c r h
  intro r'
  constructor
  · intro hocc
    by_contra hle
    push_neg at hle
    rcases Nat.lt_or_ge r'.val r.val with hlt | hge
    · exact (hg r' r c hlt hocc) hemp
    · have : r' = r := Fin.ext (by omega)
      subst this
      exact hocc hemp
  · exact habove r'

theorem card_filter_val_lt (k : Fin ROWS) :
    (Finset.univ.filter (fun r' : Fin ROWS => k.val < r'.val)).card =
      ROWS - 1 - k.val := by
  revert k; decide

theorem colCount_of_some (b : Board) (c : Fin COLS) (r : Fin ROWS)
    (hg : gravityInv b) (h : getLowestEmptyRow b c = some r) :
    colCount b c = ROWS - 1 - r.val := by
  unfold colCount
  rw [Finset.filter_congr (fun r' _ => lowRow_gravity_char b c r hg h r')]
  exact card_filter_val_lt r

theorem colCount_of_none (b : Board) (c : Fin COLS)
    (h : getLowestEmptyRow b c = none) :
    colCount b c = ROWS := by
  unfold colCount
  rw [Finset.filter_true_of_mem
    (fun r' _ => (getLowestEmptyRow_eq_none_iff b c).mp h r')]
  simp [ROWS]

/-- `dropPiece` at an in-range column reduces to the scan. -/
theorem dropPiece_inrange (b : Board) (c : Fin COLS) (player : Nat) :
    dropPiece b (c.val : Int) player =
      match getLowestEmptyRow b c with
      | none => ⟨false, -1, b⟩
      | some r => ⟨true, (r.val : Int), setCell b r c player⟩ := by
  have hcond : (0 : Int) ≤ (c.val : Int) ∧ (c.val : Int) < (COLS : Int) := by
    exact ⟨Int.natCast_nonneg _, by exact_mod_cast c.isLt⟩
  unfold dropPiece
  rw [dif_pos hcond]
  have hc : (⟨((c.val : Int)).toNat, by omega⟩ : Fin COLS) = c := by
    apply Fin.ext
    simp
  rw [hc]

theorem dropPiece_out_of_range (b : Board) (col : Int) (player : Nat)
    (h : col < 0 ∨ (COLS : Int) ≤ col) :
    dropPiece b col player = ⟨false, -1, b⟩ := by
  unfold dropPiece
  rw [dif_neg]
  omega

/-- C2: on a gravity-respecting board whose column `c` holds `N` pieces,
`dropPiece` succeeds iff `N < ROWS` and the piece lands at row `ROWS-1-N`,
changing no other cell; a full or out-of-range column fails.  The embedding
is pure, so the input board is untouched by construction. -/
theorem dropPiece_gravity_spec (b : Board) (c : Fin COLS) (player : Nat)
    (hg : gravityInv b) : DropSpec b c player := by
  have hR : ROWS = 6 := rfl
  unfold DropSpec
  refine ⟨?_, ?_, ?_⟩
  · intro hN
    cases h : getLowestEmptyRow b c with
    | none =>
      have := colCount_of_none b c h
      omega
    | some r =>
      have hcc := colCount_of_some b c r hg h
      have hrlt := r.isLt
      have hrval : r.val = ROWS - 1 - colCount b c := by omega
      rw [dropPiece_inrange, h]
      refine ⟨rfl, by simp only; rw [hrval], ?_⟩
      intro r' c'
      simp only [setCell]
      have hiff : (r' = r ∧ c' = c) ↔
          (r'.val = ROWS - 1 - colCount b c ∧ c' = c) := by
        rw [Fin.ext_iff, hrval]
      rw [if_congr hiff rfl rfl]
  · intro hN
    cases h : getLowestEmptyRow b c with
    | some r =>
      have := colCount_of_some b c r hg h
      have := r.isLt
      omega
    | none =>
      rw [dropPiece_inrange, h]
  · intro col hcol
    rw [dropPiece_out_of_range b col player hcol]

/-- C2 witness: the empty board with column 0. -/
theorem dropPiece_gravity_spec_witness :
    gravityInv createBoard ∧ DropSpec createBoard ⟨0, by decide⟩ 1 :=
  ⟨by decide, dropPiece_gravity_spec createBoard ⟨0, by decide⟩ 1 (by decide)⟩

theorem makeMove_gameOver (s : GameState) (col : Int) (h : s.gameOver = true) :
    s.makeMove col = (failResult, s) := by
  simp [GameState.makeMove, h]

theorem makeMove_dropFail (s : GameState) (col : Int) (h0 : s.gameOver = false)
    (h1 : (dropPiece s.board col s.currentPlayer).success = false) :
    s.makeMove col = (failResult, s) := by
  simp [GameState.makeMove, h0, h1]

theorem makeMove_win (s : GameState) (col : Int) (h0 : s.gameOver = false)
    (h1 : (dropPiece s.board col s.currentPlayer).success = true)
    (h2 : (checkWin (dropPiece s.board col s.currentPlayer).board s.currentPlayer).won = true) :
    s.makeMove col =
      (⟨true, (dropPiece s.board col s.currentPlayer).row, some s.currentPlayer,
         (checkWin (dropPiece s.board col s.currentPlayer).board s.currentPlayer).cells, false⟩,
       { s with
         board := (dropPiece s.board col s.currentPlayer).board
         moveHistory := s.moveHistory ++ [⟨col, (dropPiece s.board col s.currentPlayer).row, s.currentPlayer⟩]
         winner := some s.currentPlayer
         winningCells := (checkWin (dropPiece s.board col s.currentPlayer).board s.currentPlayer).cells
         gameOver := true }) := by
  simp [GameState.makeMove, h0, h1, h2]

theorem makeMove_draw (s : GameState) (col : Int) (h0 : s.gameOver = false)
    (h1 : (dropPiece s.board col s.currentPlayer).success = true)
    (h2 : (checkWin (dropPiece s.board col s.currentPlayer).board s.currentPlayer).won = false)
    (h3 : isBoardFull (dropPiece s.board col s.currentPlayer).board = true) :
    s.makeMove col =
      (⟨true, (dropPiece s.board col s.currentPlayer).row, none, [], true⟩,
       { s with
         board := (dropPiece s.board col s.currentPlayer).board
         moveHistory := s.moveHistory ++ [⟨col, (dropPiece s.board col s.currentPlayer).row, s.currentPlayer⟩]
         isDraw := true
         gameOver := true }) := by
  simp [GameState.makeMove, h0, h1, h2, h3]

theorem makeMove_normal (s : GameState) (col : Int) (h0 : s.gameOver = false)
    (h1 : (dropPiece s.board col s.currentPlayer).success = true)
    (h2 : (checkWin (dropPiece s.board col s.currentPlayer).board s.currentPlayer).won = false)
    (h3 : isBoardFull (dropPiece s.board col s.currentPlayer).board = false) :
    s.makeMove col =
      (⟨true, (dropPiece s.board col s.currentPlayer).row, none, [], false⟩,
       { s with
         board := (dropPiece s.board col s.currentPlayer).board
         moveHistory := s.moveHistory ++ [⟨col, (dropPiece s.board col s.currentPlayer).row, s.currentPlayer⟩]
         currentPlayer := getOtherPlayer s.currentPlayer }) := by
  simp [GameState.makeMove, h0, h1, h2, h3]

theorem getOtherPlayer_ne (p : Nat) : getOtherPlayer p ≠ p := by
  unfold getOtherPlayer PLAYER_RED PLAYER_YELLOW
  split <;> omega

/-- C1: a move is rejected with no state change when the game is over, the
column is out of range, or the column is full. -/
theorem makeMove_rejects (s : GameState) (col : Int)
    (h : s.gameOver = true ∨ col < 0 ∨ (COLS : Int) ≤ col ∨
      ∀ (r : Fin ROWS) (hc : col.toNat < COLS), s.board r ⟨col.toNat, hc⟩ ≠ EMPTY) :
    s.makeMove col = (failResult, s) := by
  cases hgo : s.gameOver with
  | true => exact makeMove_gameOver s col hgo
  | false =>
    apply makeMove_dropFail s col hgo
    rcases h with h | h | h | h
    · rw [hgo] at h
      exact absurd h (by simp)
    · rw [dropPiece_out_of_range _ _ _ (Or.inl h)]
    · rw [dropPiece_out_of_range _ _ _ (Or.inr h)]
    · by_cases hr : (0 : Int) ≤ col ∧ col < (COLS : Int)
      · have hc : col.toNat < COLS := by omega
        have hnone : getLowestEmptyRow s.board ⟨col.toNat, hc⟩ = none :=
          (getLowestEmptyRow_eq_none_iff _ _).mpr (fun r' => h r' hc)
        unfold dropPiece
        rw [dif_pos hr]
        simp only [hnone]
      · unfold dropPiece
        rw [dif_neg hr]

theorem makeMove_rejects_witness :
    ((-3 : Int) < 0) ∧ GameState.reset.makeMove (-3) = (failResult, GameState.reset) :=
  ⟨by decide, makeMove_rejects GameState.reset (-3) (Or.inr (Or.inl (by decide)))⟩

/-- C4: a successful non-terminal move flips the player; a failed move leaves
it unchanged. -/
theorem turn_alternation (s : GameState) (col : Int) :
    ((s.makeMove col).1.success = true → (s.makeMove col).1.winner = none →
      (s.makeMove col).1.isDraw = false →
      (s.makeMove col).2.currentPlayer = getOtherPlayer s.currentPlayer ∧
      (s.makeMove col).2.currentPlayer ≠ s.currentPlayer) ∧
    ((s.makeMove col).1.success = false →
      (s.makeMove col).2.currentPlayer = s.currentPlayer) := by
  cases hgo : s.gameOver with
  | true =>
    rw [makeMove_gameOver s col hgo]
    exact ⟨fun hs => by simp [failResult] at hs, fun _ => rfl⟩
  | false =>
    cases hds : (dropPiece s.board col s.currentPlayer).success with
    | false =>
      rw [makeMove_dropFail s col hgo hds]
      exact ⟨fun hs => by simp [failResult] at hs, fun _ => rfl⟩
    | true =>
      cases hw : (checkWin (dropPiece s.board col s.currentPlayer).board s.currentPlayer).won with
      | true =>
        rw [makeMove_win s col hgo hds hw]
        exact ⟨fun _ hwn => by simp at hwn, fun hs => by simp at hs⟩
      | false =>
        cases hf : isBoardFull (dropPiece s.board col s.currentPlayer).board with
        | true =>
          rw [makeMove_draw s col hgo hds hw hf]
          exact ⟨fun _ _ hd => by simp at hd, fun hs => by simp at hs⟩
        | false =>
          rw [makeMove_normal s col hgo hds hw hf]
          exact ⟨fun _ _ _ => ⟨rfl, getOtherPlayer_ne _⟩, fun hs => by simp at hs⟩

theorem turn_alternation_witness :
    (GameState.reset.makeMove 0).1.success = true ∧
    (GameState.reset.makeMove 0).2.currentPlayer = getOtherPlayer GameState.reset.currentPlayer ∧
    (GameState.reset.makeMove 0).2.currentPlayer ≠ GameState.reset.currentPlayer := by
  have h := (turn_alternation GameState.reset 0).1 (by decide) (by decide) (by decide)
  exact ⟨by decide, h.1, h.2⟩

/-- C5: the serialize/deserialize round trip reproduces the state
field-for-field. -/
theorem serialize_roundtrip (s : GameState) (h : Reachable s) :
    GameState.deserialize (GameState.serialize s) = s := by
  cases s
  rfl

theorem serialize_roundtrip_witness :
    Reachable GameState.reset ∧
    GameState.deserialize (GameState.serialize GameState.reset) = GameState.reset :=
  ⟨⟨[], rfl⟩, serialize_roundtrip GameState.reset ⟨[], rfl⟩⟩

theorem setCell_gravityInv (b : Board) (r : Fin ROWS) (c : Fin COLS) (p : Nat)
    (hg : gravityInv b) (hp : p ≠ EMPTY)
    (hbelow : ∀ r' : Fin ROWS, r.val < r'.val → b r' c ≠ EMPTY) :
    gravityInv (setCell b r c p) := by
  intro r1 r2 c1 hlt h1
  unfold setCell at h1 ⊢
  by_cases h2 : r2 = r ∧ c1 = c
  · rw [if_pos h2]
    exact hp
  · rw [if_neg h2]
    by_cases h1c : r1 = r ∧ c1 = c
    · obtain ⟨rfl, rfl⟩ := h1c
      exact hbelow r2 hlt
    · rw [if_neg h1c] at h1
      exact hg r1 r2 c1 hlt h1

theorem setCell_keeps_nonempty (b : Board) (r : Fin ROWS) (c : Fin COLS)
    (p : Nat) (he : b r c = EMPTY) :
    ∀ (r' : Fin ROWS) (c' : Fin COLS), b r' c' ≠ EMPTY →
      setCell b r c p r' c' = b r' c' := by
  intro r' c' hocc
  unfold setCell
  rw [if_neg]
  rintro ⟨rfl, rfl⟩
  exact hocc he

theorem dropPiece_success_spec (b : Board) (col : Int) (p : Nat)
    (h : (dropPiece b col p).success = true) :
    ∃ (c : Fin COLS) (r : Fin ROWS),
      getLowestEmptyRow b c = some r ∧
      (dropPiece b col p).board = setCell b r c p := by
  by_cases hr : (0 : Int) ≤ col ∧ col < (COLS : Int)
  · unfold dropPiece at h ⊢
    rw [dif_pos hr] at h ⊢
    cases hlow : getLowestEmptyRow b ⟨col.toNat, by omega⟩ with
    | none =>
      simp only [hlow] at h
      exact absurd h (by decide)
    | some r =>
      simp only [hlow]
      exact ⟨_, r, hlow, rfl⟩
  · unfold dropPiece at h
    rw [dif_neg hr] at h
    simp at h

theorem makeMove_success_board (s : GameState) (col : Int)
    (h : (s.makeMove col).1.success = true) :
    (s.makeMove col).2.board = (dropPiece s.board col s.currentPlayer).board ∧
    s.gameOver = false ∧
    (dropPiece s.board col s.currentPlayer).success = true := by
  cases hgo : s.gameOver with
  | true => rw [makeMove_gameOver s col hgo] at h; simp [failResult] at h
  | false =>
    cases hds : (dropPiece s.board col s.currentPlayer).success with
    | false => rw [makeMove_dropFail s col hgo hds] at h; simp [failResult] at h
    | true =>
      refine ⟨?_, rfl, rfl⟩
      cases hw : (checkWin (dropPiece s.board col s.currentPlayer).board s.currentPlayer).won with
      | true => rw [makeMove_win s col hgo hds hw]
      | false =>
        cases hf : isBoardFull (dropPiece s.board col s.currentPlayer).board with
        | true => rw [makeMove_draw s col hgo hds hw hf]
        | false => rw [makeMove_normal s col hgo hds hw hf]

theorem monotonicFill_all (s : GameState) : MonotonicFill s := by
  intro col hs r c hocc
  obtain ⟨hboard, hgo, hds⟩ := makeMove_success_board s col hs
  rw [hboard]
  obtain ⟨c', r', hlow, hset⟩ := dropPiece_success_spec s.board col s.currentPlayer hds
  rw [hset]
  exact setCell_keeps_nonempty _ _ _ _
    (getLowestEmptyRow_some_spec _ _ _ hlow).1 r c hocc

theorem getOtherPlayer_wf (p : Nat) :
    getOtherPlayer p = PLAYER_RED ∨ getOtherPlayer p = PLAYER_YELLOW := by
  unfold getOtherPlayer
  split
  · exact Or.inr rfl
  · exact Or.inl rfl

theorem makeMove_preserves_inv (s : GameState) (col : Int) (h : StateInv s) :
    StateInv (s.makeMove col).2 := by
  obtain ⟨hg, hp⟩ := h
  cases hgo : s.gameOver with
  | true => rw [makeMove_gameOver s col hgo]; exact ⟨hg, hp⟩
  | false =>
    cases hds : (dropPiece s.board col s.currentPlayer).success with
    | false => rw [makeMove_dropFail s col hgo hds]; exact ⟨hg, hp⟩
    | true =>
      have hpz : s.currentPlayer ≠ EMPTY := by
        rcases hp with h1 | h1 <;> rw [h1] <;> decide
      obtain ⟨c', r', hlow, hset⟩ :=
        dropPiece_success_spec s.board col s.currentPlayer hds
      obtain ⟨hemp, hbelow⟩ := getLowestEmptyRow_some_spec _ _ _ hlow
      have hg' : gravityInv (dropPiece s.board col s.currentPlayer).board := by
        rw [hset]
        exact setCell_gravityInv _ _ _ _ hg hpz hbelow
      cases hw : (checkWin (dropPiece s.board col s.currentPlayer).board s.currentPlayer).won with
      | true => rw [makeMove_win s col hgo hds hw]; exact ⟨hg', hp⟩
      | false =>
        cases hf : isBoardFull (dropPiece s.board col s.currentPlayer).board with
        | true => rw [makeMove_draw s col hgo hds hw hf]; exact ⟨hg', hp⟩
        | false =>
          rw [makeMove_normal s col hgo hds hw hf]
          exact ⟨hg', getOtherPlayer_wf _⟩

theorem reachable_stateInv (s : GameState) (h : Reachable s) : StateInv s := by
  obtain ⟨ms, rfl⟩ := h
  suffices H : ∀ (l : List Int) (s0 : GameState), StateInv s0 →
      StateInv (applyMoves s0 l) by
    exact H ms GameState.reset ⟨by decide, Or.inl rfl⟩
  intro l
  induction l with
  | nil => intro s0 h0; exact h0
  | cons m rest ih =>
    intro s0 h0
    exact ih _ (makeMove_preserves_inv s0 m h0)

/-- C6: every reachable state respects gravity, and a successful move never
overwrites an occupied cell. -/
theorem gravity_and_monotonic (s : GameState) (h : Reachable s) :
    gravityInv s.board ∧ MonotonicFill s :=
  ⟨(reachable_stateInv s h).1, monotonicFill_all s⟩

theorem gravity_and_monotonic_witness :
    gravityInv (applyMoves GameState.reset [3]).board ∧
    MonotonicFill (applyMoves GameState.reset [3]) :=
  gravity_and_monotonic _ ⟨[3], rfl⟩

/-- C10: under gravity, membership in `getValidColumns`, a free top cell, and
`dropPiece` success all agree. -/
theorem validColumns_iff (s : GameState) (c : Fin COLS) (player : Nat)
    (hg : gravityInv s.board) :
    (c ∈ s.getValidColumns ↔
      (dropPiece s.board (c.val : Int) player).success = true) ∧
    (isColumnFull s.board c = false ↔
      (dropPiece s.board (c.val : Int) player).success = true) := by
  have hmem : c ∈ s.getValidColumns ↔ isColumnFull s.board c = false := by
    unfold GameState.getValidColumns
    rw [List.mem_filter]
    simp [List.mem_finRange]
  have hcore : isColumnFull s.board c = false ↔
      (dropPiece s.board (c.val : Int) player).success = true := by
    rw [dropPiece_inrange]
    constructor
    · intro hfull
      have htop : s.board ⟨0, by decide⟩ c = EMPTY := by
        unfold isColumnFull at hfull
        simpa using hfull
      cases hlow : getLowestEmptyRow s.board c with
      | none =>
        exact absurd htop ((getLowestEmptyRow_eq_none_iff _ _).mp hlow ⟨0, by decide⟩)
      | some r => simp only [hlow]
    · intro hsucc
      cases hlow : getLowestEmptyRow s.board c with
      | none =>
        simp only [hlow] at hsucc
        exact absurd hsucc (by decide)
      | some r =>
        obtain ⟨hemp, _⟩ := getLowestEmptyRow_some_spec _ _ _ hlow
        unfold isColumnFull
        by_contra hne
        have htop : s.board ⟨0, by decide⟩ c ≠ EMPTY := by
          simpa using hne
        rcases Nat.eq_zero_or_pos r.val with h0 | h0
        · have hr0 : r = ⟨0, by decide⟩ := Fin.ext (by simpa using h0)
          rw [hr0] at hemp
          exact htop hemp
        · exact (hg ⟨0, by decide⟩ r c (by simpa using h0) htop) hemp
  exact ⟨hmem.trans hcore, hcore⟩

theorem validColumns_iff_witness :
    gravityInv GameState.reset.board ∧
    ((⟨0, by decide⟩ : Fin COLS) ∈ GameState.reset.getValidColumns ↔
      (dropPiece GameState.reset.board
        (((⟨0, by decide⟩ : Fin COLS)).val : Int) 1).success = true) :=
  ⟨by decide, (validColumns_iff GameState.reset ⟨0, by decide⟩ 1 (by decide)).1⟩

theorem mem_allWindows_iff (w : List (Nat × Nat)) : w ∈ allWindows ↔
    (∃ row col, row < 6 ∧ col < 4 ∧ hWin row col = w) ∨
    (∃ row col, row < 3 ∧ col < 7 ∧ vWin row col = w) ∨
    (∃ i col, i < 3 ∧ col < 4 ∧ dUpWin (i + 3) col = w) ∨
    (∃ row col, row < 3 ∧ col < 4 ∧ dDownWin row col = w) := by
  unfold allWindows horizWindows vertWindows diagUpWindows diagDownWindows
  simp [List.mem_append, List.mem_flatMap, List.mem_map, List.mem_range,
    ROWS, COLS]

theorem windowMatches_hWin (b : Board) (p : Nat) (row col : Nat) :
    windowMatches b p (hWin row col) = true ↔
      (cellAt b (row, col) = p ∧ cellAt b (row, col + 1) = p ∧
       cellAt b (row, col + 2) = p ∧ cellAt b (row, col + 3) = p) := by
  simp [windowMatches, hWin]

theorem windowMatches_vWin (b : Board) (p : Nat) (row col : Nat) :
    windowMatches b p (vWin row col) = true ↔
      (cellAt b (row, col) = p ∧ cellAt b (row + 1, col) = p ∧
       cellAt b (row + 2, col) = p ∧ cellAt b (row + 3, col) = p) := by
  simp [windowMatches, vWin]

theorem windowMatches_dUpWin (b : Board) (p : Nat) (row col : Nat) :
    windowMatches b p (dUpWin row col) = true ↔
      (cellAt b (row, col) = p ∧ cellAt b (row - 1, col + 1) = p ∧
       cellAt b (row - 2, col + 2) = p ∧ cellAt b (row - 3, col + 3) = p) := by
  simp [windowMatches, dUpWin]

theorem windowMatches_dDownWin (b : Board) (p : Nat) (row col : Nat) :
    windowMatches b p (dDownWin row col) = true ↔
      (cellAt b (row, col) = p ∧ cellAt b (row + 1, col + 1) = p ∧
       cellAt b (row + 2, col + 2) = p ∧ cellAt b (row + 3, col + 3) = p) := by
  simp [windowMatches, dDownWin]

theorem hasFour_iff_window (b : Board) (p : Nat) :
    hasFourInARow b p ↔ ∃ w ∈ allWindows, windowMatches b p w = true := by
  have hR : ROWS = 6 := rfl
  have hC : COLS = 7 := rfl
  unfold hasFourInARow
  constructor
  · rintro (⟨row, col, h1, h2, hc⟩ | ⟨row, col, h1, h2, hc⟩ |
      ⟨row, col, h1a, h1, h2, hc⟩ | ⟨row, col, h1, h2, hc⟩)
    · exact ⟨hWin row col,
        (mem_allWindows_iff _).mpr (Or.inl ⟨row, col, by omega, by omega, rfl⟩),
        (windowMatches_hWin b p row col).mpr hc⟩
    · exact ⟨vWin row col,
        (mem_allWindows_iff _).mpr
          (Or.inr (Or.inl ⟨row, col, by omega, by omega, rfl⟩)),
        (windowMatches_vWin b p row col).mpr hc⟩
    · refine ⟨dUpWin row col,
        (mem_allWindows_iff _).mpr
          (Or.inr (Or.inr (Or.inl ⟨row - 3, col, by omega, by omega, ?_⟩))),
        (windowMatches_dUpWin b p row col).mpr hc⟩
      have : row - 3 + 3 = row := by omega
      rw [this]
    · exact ⟨dDownWin row col,
        (mem_allWindows_iff _).mpr
          (Or.inr (Or.inr (Or.inr ⟨row, col, by omega, by omega, rfl⟩))),
        (windowMatches_dDownWin b p row col).mpr hc⟩
  · rintro ⟨w, hw, hmatch⟩
    rcases (mem_allWindows_iff w).mp hw with
      ⟨row, col, h1, h2, rfl⟩ | ⟨row, col, h1, h2, rfl⟩ |
      ⟨i, col, h1, h2, rfl⟩ | ⟨row, col, h1, h2, rfl⟩
    · exact Or.inl ⟨row, col, by omega, by omega,
        (windowMatches_hWin b p row col).mp hmatch⟩
    · exact Or.inr (Or.inl ⟨row, col, by omega, by omega,
        (windowMatches_vWin b p row col).mp hmatch⟩)
    · exact Or.inr (Or.inr (Or.inl ⟨i + 3, col, by omega, by omega, by omega,
        (windowMatches_dUpWin b p (i + 3) col).mp hmatch⟩))
    · exact Or.inr (Or.inr (Or.inr ⟨row, col, by omega, by omega,
        (windowMatches_dDownWin b p row col).mp hmatch⟩))

/-- C3: `checkWin` decides four-in-a-row and reports the first winning
window in scan order. -/
theorem checkWin_spec (b : Board) (p : Nat) : FirstWinSpec b p := by
  unfold FirstWinSpec
  cases hfind : allWindows.find? (fun w => windowMatches b p w) with
  | none =>
    have hcw : checkWin b p = ⟨false, []⟩ := by
      unfold checkWin
      rw [hfind]
    rw [hcw]
    refine ⟨?_, fun _ => rfl, fun h => by simp at h⟩
    simp only [iff_true_intro rfl, true_iff]
    intro hfour
    obtain ⟨w, hw, hmatch⟩ := (hasFour_iff_window b p).mp hfour
    have := List.find?_eq_none.mp hfind w hw
    rw [hmatch] at this
    exact this rfl
  | some w =>
    have hcw : checkWin b p = ⟨true, w⟩ := by
      unfold checkWin
      rw [hfind]
    rw [hcw]
    have hmatch := List.find?_some hfind
    have hmem := List.mem_of_find?_eq_some hfind
    refine ⟨?_, fun h => by simp at h, fun _ => ?_⟩
    · constructor
      · intro h
        simp at h
      · intro hnf
        exact absurd ((hasFour_iff_window b p).mpr ⟨w, hmem, hmatch⟩) hnf
    · obtain ⟨l₁, l₂, heq, hp, hfirst⟩ := find_first_spec _ _ _ hfind
      exact ⟨hmatch, l₁, l₂, heq, hfirst⟩

theorem checkWin_spec_witness : FirstWinSpec winBoard PLAYER_RED :=
  checkWin_spec winBoard PLAYER_RED

/-- C7: the rematch handler records the sender, fires the single
rematch-started broadcast and clears state exactly when both occupants have
requested, and otherwise only notifies the other occupant; a repeated
request from the same player never triggers the rematch. -/
theorem handleRematch_spec (g : Room) (sender : String) : RematchSpec g sender := by
  unfold RematchSpec
  by_cases h : 2 ≤ (insert sender g.rematchRequests).card
  · simp only [handleRematch]
    rw [if_pos h]
    refine ⟨fun _ => ⟨rfl, rfl, rfl⟩, fun hlt => absurd h (by omega), fun hone => ?_⟩
    rw [hone] at h
    simp at h
  · simp only [handleRematch]
    rw [if_neg h]
    have hmsgs : ∀ e ∈ broadcastTo (g.players.filter (fun q => q != sender))
        (GameMsg.rematchRequested sender), e.1 ≠ sender ∧
        e.2 ≠ GameMsg.rematchStarted := by
      intro e he
      unfold broadcastTo at he
      obtain ⟨q, hq, rfl⟩ := List.mem_map.mp he
      have hne := (List.mem_filter.mp hq).2
      refine ⟨by simpa using hne, by simp⟩
    refine ⟨fun hge => absurd hge h,
      fun _ => ⟨rfl, Finset.mem_insert_self _ _, rfl, rfl,
        fun e he => (hmsgs e he).1⟩,
      fun hone => ⟨?_, rfl, fun e he => (hmsgs e he).2⟩⟩
    rw [hone]
    exact Finset.insert_eq_self.mpr (Finset.mem_singleton_self sender)

theorem handleRematch_spec_witness :
    2 ≤ (insert "p2" roomW.rematchRequests).card ∧
    (handleRematch roomW "p2").1.rematchRequests = (∅ : Finset String) ∧
    (handleRematch roomW "p2").1.gameState = none ∧
    (handleRematch roomW "p2").2 = broadcastTo roomW.players GameMsg.rematchStarted := by
  have hc : 2 ≤ (insert "p2" roomW.rematchRequests).card := by decide
  have h := (handleRematch_spec roomW "p2").1 hc
  exact ⟨hc, h.1, h.2.1, h.2.2⟩

theorem genCodeAux_spec : ∀ (fuel k : Nat) (draws : Nat → Fin 32)
    (live : Finset String) (code : String),
    genCodeAux draws live k fuel = some code →
    code.length = 6 ∧ (∀ ch ∈ code.toList, ch ∈ codeAlphabet) ∧ code ∉ live := by
  intro fuel
  induction fuel with
  | zero => intro k draws live code h; simp [genCodeAux] at h
  | succ n ih =>
    intro k draws live code h
    unfold genCodeAux at h
    by_cases hmem : mkCode draws k ∈ live
    · rw [if_pos hmem] at h
      exact ih (k + 1) draws live code h
    · rw [if_neg hmem] at h
      obtain rfl : mkCode draws k = code := by simpa using h
      refine ⟨?_, ?_, hmem⟩
      · unfold mkCode
        simp [String.length]
      · intro ch hch
        unfold mkCode at hch
        simp only [String.toList] at hch
        obtain ⟨i, hi, rfl⟩ := List.mem_map.mp hch
        exact List.get_mem _ _ _

/-- C8: every code the generator returns has length 6, uses only the
unambiguous alphabet, and misses every live room code. -/
theorem generateGameCode_spec (draws : Nat → Fin 32) (live : Finset String)
    (fuel : Nat) (code : String)
    (h : generateGameCode draws live fuel = some code) :
    code.length = 6 ∧ (∀ ch ∈ code.toList, ch ∈ codeAlphabet) ∧ code ∉ live :=
  genCodeAux_spec fuel 0 draws live code h

theorem generateGameCode_spec_witness :
    generateGameCode (fun _ => 0) (∅ : Finset String) 1 = some "AAAAAA" ∧
    "AAAAAA".length = 6 ∧ (∀ ch ∈ "AAAAAA".toList, ch ∈ codeAlphabet) ∧
    "AAAAAA" ∉ (∅ : Finset String) := by
  have h : generateGameCode (fun _ => 0) (∅ : Finset String) 1 = some "AAAAAA" := by
    decide
  exact ⟨h, generateGameCode_spec _ _ _ _ h⟩

/-- C9: the retry loop has no cap.  With a live room "AAAAAA" and a random
stream that always draws character A, the loop is still running after every
finite number of attempts and never reports an error. -/
theorem genCode_no_retry_cap : ∀ (fuel k : Nat),
    genCodeAux (fun _ => (0 : Fin 32)) {"AAAAAA"} k fuel = none := by
  intro fuel
  induction fuel with
  | zero => intro k; rfl
  | succ n ih =>
    intro k
    unfold genCodeAux
    rw [if_pos]
    · exact ih (k + 1)
    · show mkCode (fun _ => 0) k ∈ ({"AAAAAA"} : Finset String)
      have hmk : mkCode (fun _ => 0) k = "AAAAAA" := rfl
      rw [hmk]
      exact Finset.mem_singleton_self _
